import Mathlib

/-!
Verification of the room-type location provider
(`src/providers/room_type_location_provider.py`).

The provider samples a `room_type` dynamic variable, keeps a time-bounded
history window, selects the majority label, checks a stability duration,
and POSTs each newly confirmed label at most once.

Shallow embedding conventions: Python `time.time()` timestamps are modelled
as rationals, the history deque as a list with the head at the front of the
deque, the posted set as a duplicate-free list, and the HTTP call outcome as
an explicit input to each cycle.
-/

namespace RoomTypeLocation

/-- Ascii whitespace characters removed by Python `str.strip()`. -/
def isPyWhitespace (c : Char) : Bool :=
  c = ' ' || c = '\t' || c = '\n' || c = '\r' || c = '\x0b' || c = '\x0c'

/-- Python `str.strip()` on ascii text: drop leading and trailing whitespace. -/
def pyStrip (s : String) : String :=
  String.mk (((s.data.dropWhile isPyWhitespace).reverse.dropWhile isPyWhitespace).reverse)

/-- Python `str.lower()` on ascii text: lowercase each character. -/
def pyLower (s : String) : String :=
  String.mk (s.data.map Char.toLower)

/-- The normalisation applied in `_get_current_room_type`:
`room_type.strip().lower()`. -/
def normalizeRoom (s : String) : String := pyLower (pyStrip s)

/-- `self._allowed_room_types`, the fixed allowed label set. -/
def allowedRoomTypes : List String :=
  ["living_room", "bedroom", "study", "kitchen", "outdoor"]

/-- Outcome of `io_provider.get_dynamic_variable("room_type")`: the call
raises, returns `None`, or returns a string value. -/
inductive ReadResult
  | err
  | val (v : Option String)
deriving DecidableEq

/-- `_get_current_room_type`: on a raise or a falsy value return `None`;
otherwise strip, lowercase, and check membership in the allowed set. -/
def getCurrentRoomType (read : ReadResult) : Option String :=
  match read with
  | .err => none
  | .val none => none
  | .val (some s) =>
      if s = "" then none
      else
        let r := normalizeRoom s
        if r ∈ allowedRoomTypes then some r else none

/-- The pruning loop of `_process_room_type`:
`while history and history[0][0] < cutoff: popleft()`. -/
def pruneHistory (cutoff : ℚ) : List (ℚ × String) → List (ℚ × String)
  | [] => []
  | p :: rest => if p.1 < cutoff then pruneHistory cutoff rest else p :: rest

/-- Occurrence count of a label in the window, as tallied by
`Counter(rt for _, rt in history)`. -/
def countLabel (l : String) (hist : List (ℚ × String)) : Nat :=
  (hist.filter (fun p => decide (p.2 = l))).length

/-- Distinct labels in first-occurrence order: the key order of a Python
`Counter` built by iterating the window front to back. -/
def firstSeenKeys : List String → List String
  | [] => []
  | a :: rest => a :: (firstSeenKeys rest).filter (fun x => decide (x ≠ a))

/-- Left fold selecting the key with the largest count; a strict comparison
keeps the earlier key on ties, exactly as the stable sort inside
`Counter.most_common` does. -/
def pickBest (cnt : String → Nat) (b : String × Nat) (keys : List String) : String × Nat :=
  keys.foldl (fun best x => if cnt x > best.2 then (x, cnt x) else best) b

/-- `counts.most_common(1)[0]`: the (label, count) pair with the largest
count, ties resolved in favour of the label first inserted into the counter.
The window is nonempty at the call site; `("", 0)` is a junk value for `[]`. -/
def mostCommon1 (hist : List (ℚ × String)) : String × Nat :=
  match firstSeenKeys (hist.map Prod.snd) with
  | [] => ("", 0)
  | k :: rest => pickBest (fun l => countLabel l hist) (k, countLabel k hist) rest

/-- `min(ts for ts, rt in history if rt == winner)`: earliest in-window
timestamp carrying the winning label (0 is a junk value for the impossible
empty case, since the winner occurs in the window). -/
def minWinnerTs (w : String) (hist : List (ℚ × String)) : ℚ :=
  match (hist.filter (fun p => decide (p.2 = w))).map Prod.fst with
  | [] => 0
  | t :: ts => ts.foldl min t

/-- Construction-time configuration of the provider. -/
structure Config where
  baseUrl : String
  windowSeconds : ℚ
  majorityThreshold : ℚ
  minStableSeconds : ℚ
deriving DecidableEq

/-- The defaults computed in `__init__` from `refresh_interval`:
window is 6 intervals, threshold 0.7, minimum stability 3 intervals. -/
def mkConfig (baseUrl : String) (refreshInterval : ℚ) : Config :=
  { baseUrl := baseUrl
    windowSeconds := refreshInterval * 6
    majorityThreshold := 7 / 10
    minStableSeconds := refreshInterval * 3 }

/-- Cross-cycle mutable state: `self._room_history` and
`self._posted_room_types`. The posted set is a duplicate-free list. -/
structure ProviderState where
  roomHistory : List (ℚ × String)
  postedRoomTypes : List String
deriving DecidableEq

/-- Outcome of `requests.post`: a status code, `requests.Timeout`, or any
other transport exception. -/
inductive HttpOutcome
  | status (code : ℤ)
  | timeout
  | transportError
deriving DecidableEq

/-- The success test `200 <= resp.status_code < 300`; a timeout or a
transport exception is never a success. -/
def httpSuccess : HttpOutcome → Bool
  | .status c => decide (200 ≤ c ∧ c < 300)
  | .timeout => false
  | .transportError => false

/-- Observable outcome of one `_process_room_type` call, one constructor per
return path of the method. -/
inductive CycleEvent
  | noBaseUrl
  | noSample
  | emptyWindow
  | noDecision
  | skippedAlreadyPosted (label : String)
  | posted (label : String) (success : Bool)
deriving DecidableEq

/-- Environment inputs consumed by one cycle: the dynamic-variable read, the
`time.time()` value, and how the HTTP POST would respond if issued. -/
structure CycleInput where
  read : ReadResult
  now : ℚ
  http : HttpOutcome
deriving DecidableEq

/-- The decision half of `_process_room_type`, from the empty-window check
onward: majority vote, stability check, delivery gate, POST, and the update
of the posted set on a 2xx response. Returns the new posted set and the
outcome of the cycle. -/
def decideAndDeliver (cfg : Config) (posted : List String)
    (hist : List (ℚ × String)) (now : ℚ) (http : HttpOutcome) :
    List String × CycleEvent :=
  match hist with
  | [] => (posted, .emptyWindow)
  | _ :: _ =>
    let wc := mostCommon1 hist
    let majorityFraction : ℚ := (wc.2 : ℚ) / (hist.length : ℚ)
    if majorityFraction < cfg.majorityThreshold then (posted, .noDecision)
    else
      let stableSeconds := now - minWinnerTs wc.1 hist
      if stableSeconds < cfg.minStableSeconds then (posted, .noDecision)
      else if wc.1 ∈ posted then (posted, .skippedAlreadyPosted wc.1)
      else if httpSuccess http then (wc.1 :: posted, .posted wc.1 true)
      else (posted, .posted wc.1 false)

/-- `_process_room_type`: bail out on a missing base url or an invalid
sample, otherwise append the sample, prune the window, and run the decision
and delivery stage. -/
def processRoomType (cfg : Config) (st : ProviderState) (inp : CycleInput) :
    ProviderState × CycleEvent :=
  if cfg.baseUrl = "" then (st, .noBaseUrl)
  else
    match getCurrentRoomType inp.read with
    | none => (st, .noSample)
    | some roomType =>
      let hist := pruneHistory (inp.now - cfg.windowSeconds)
        (st.roomHistory ++ [(inp.now, roomType)])
      let pe := decideAndDeliver cfg st.postedRoomTypes hist inp.now inp.http
      ({ roomHistory := hist, postedRoomTypes := pe.1 }, pe.2)

/-- A sequence of cycles of the background loop, threading the provider
state and collecting the outcome of each cycle in order. -/
def runCycles (cfg : Config) (st : ProviderState) :
    List CycleInput → ProviderState × List CycleEvent
  | [] => (st, [])
  | inp :: rest =>
    let se := processRoomType cfg st inp
    let tail := runCycles cfg se.1 rest
    (tail.1, se.2 :: tail.2)

/-- One scheduled iteration of `_run`: either `_process_room_type` completes
normally on the given inputs, or it raises somewhere, leaving behind whatever
incomplete state mutation had happened by the raise point. -/
inductive CycleBehavior
  | normal (inp : CycleInput)
  | raises (leftoverEffect : ProviderState → ProviderState)

/-- The `while not self._stop_event.is_set()` loop of `_run`, over a finite
schedule of cycle behaviours. The `try/except Exception` around the body
makes the step total: a raising cycle is caught and the loop moves on. The
second component counts the cycles the loop executed. -/
def runLoop (cfg : Config) (st : ProviderState) :
    List CycleBehavior → ProviderState × Nat
  | [] => (st, 0)
  | b :: rest =>
    let st2 := match b with
      | .normal inp => (processRoomType cfg st inp).1
      | .raises f => f st
    let t := runLoop cfg st2 rest
    (t.1, t.2 + 1)

/-- Thread-lifecycle state visible to `start`: `self._thread` (absent, or
present with a liveness flag), `self._stop_event`, and the provider state. -/
structure LifecycleState where
  thread : Option Bool
  stopEventSet : Bool
  prov : ProviderState
deriving DecidableEq

/-- The guard `self._thread and self._thread.is_alive()`. -/
def threadRunning (s : LifecycleState) : Bool :=
  match s.thread with
  | some alive => alive
  | none => false

/-- Observable outcome of a `start()` call. -/
inductive StartOutcome
  | warnedAlreadyRunning
  | erroredNoBaseUrl
  | started
deriving DecidableEq

/-- `start()`: warn and return if already running, refuse if the base url is
empty, otherwise clear the stop event and launch the thread. -/
def start (cfg : Config) (s : LifecycleState) : LifecycleState × StartOutcome :=
  if threadRunning s then (s, .warnedAlreadyRunning)
  else if cfg.baseUrl = "" then (s, .erroredNoBaseUrl)
  else ({ s with stopEventSet := false, thread := some true }, .started)

/-- Labels for which the cycle reached the delivery gate, i.e. the winning
label passed both the majority and the stability check. -/
def gateReached : CycleEvent → Option String
  | .skippedAlreadyPosted l => some l
  | .posted l _ => some l
  | _ => none

/-- The window of a cycle that recorded a sample: the history with the new
sample appended and entries older than the horizon pruned away
(lines 165 to 173 of `_process_room_type`). -/
def cycleWindow (cfg : Config) (st : ProviderState) (now : ℚ) (rt : String) :
    List (ℚ × String) :=
  pruneHistory (now - cfg.windowSeconds) (st.roomHistory ++ [(now, rt)])

/-- Timestamps ascending along the window, the ordering invariant of the
history deque. -/
abbrev TsSorted (h : List (ℚ × String)) : Prop :=
  List.Pairwise (fun a b => a.1 ≤ b.1) h

/-- A concrete configuration used by the evaluation examples: the defaults
for a 5 second refresh interval, with an explicit endpoint. -/
def demoConfig : Config :=
  { baseUrl := "http://localhost:5000/maps/locations/add/slam"
    windowSeconds := 30
    majorityThreshold := 7 / 10
    minStableSeconds := 15 }

/-- A concrete provider state used by the evaluation examples: four kitchen
samples at a 5 second cadence and nothing posted yet. -/
def demoState : ProviderState :=
  { roomHistory := [(0, "kitchen"), (5, "kitchen"), (10, "kitchen"), (15, "kitchen")]
    postedRoomTypes := [] }

/-- A concrete cycle input used by the evaluation examples: a fifth kitchen
sample at time 20, with the endpoint answering as given. -/
def demoInput (http : HttpOutcome) : CycleInput :=
  { read := .val (some "kitchen"), now := 20, http := http }

/-- Pruning pops a prefix of the deque: the result is a suffix of the input,
and every popped entry was strictly older than the cutoff. -/
theorem pruneHistory_exists_drop (c : ℚ) (h : List (ℚ × String)) :
    ∃ k, pruneHistory c h = h.drop k ∧ ∀ p ∈ h.take k, p.1 < c := by
  induction h with
  | nil => exact ⟨0, rfl, by simp⟩
  | cons p t ih =>
    by_cases hc : p.1 < c
    · obtain ⟨k, hk, hall⟩ := ih
      refine ⟨k + 1, by simpa [pruneHistory, hc] using hk, ?_⟩
      intro q hq
      rw [List.take_succ_cons, List.mem_cons] at hq
      rcases hq with rfl | hq
      · exact hc
      · exact hall q hq
    · exact ⟨0, by simp [pruneHistory, hc], by simp⟩

/-- The pruned window is a sublist of the unpruned window. -/
theorem pruneHistory_sublist (c : ℚ) (h : List (ℚ × String)) :
    (pruneHistory c h).Sublist h := by
  obtain ⟨k, hk, -⟩ := pruneHistory_exists_drop c h
  rw [hk]
  exact List.drop_sublist k h

/-- Pruning twice at the same cutoff removes nothing further. -/
theorem pruneHistory_idem (c : ℚ) (h : List (ℚ × String)) :
    pruneHistory c (pruneHistory c h) = pruneHistory c h := by
  induction h with
  | nil => rfl
  | cons p t ih =>
    by_cases hc : p.1 < c
    · simp [pruneHistory, hc, ih]
    · simp [pruneHistory, hc]

/-- On a timestamp-sorted window, pruning keeps exactly the entries at or
after the cutoff. -/
theorem pruneHistory_eq_filter (c : ℚ) (h : List (ℚ × String)) (hs : TsSorted h) :
    pruneHistory c h = h.filter (fun p => decide (c ≤ p.1)) := by
  induction h with
  | nil => rfl
  | cons p t ih =>
    rcases List.pairwise_cons.mp hs with ⟨hp, ht⟩
    by_cases hc : p.1 < c
    · have hnc : ¬ c ≤ p.1 := not_le.mpr hc
      rw [List.filter_cons_of_neg (by simpa using hnc)]
      simpa [pruneHistory, hc] using ih ht
    · have hcp : c ≤ p.1 := not_lt.mp hc
      rw [List.filter_cons_of_pos (by simpa using hcp)]
      rw [List.filter_eq_self.mpr fun q hq => by simpa using le_trans hcp (hp q hq)]
      simp [pruneHistory, hc]

/-- A window whose last entry is at or after the cutoff does not prune to
the empty window. -/
theorem pruneHistory_append_ne_nil (c : ℚ) (h : List (ℚ × String)) (x : ℚ × String)
    (hx : ¬ x.1 < c) : pruneHistory c (h ++ [x]) ≠ [] := by
  induction h with
  | nil => simp [pruneHistory, hx]
  | cons p t ih =>
    by_cases hp : p.1 < c
    · simpa [pruneHistory, hp] using ih
    · simp [pruneHistory, hp]

/-- On a cycle with a valid sample and a configured endpoint,
`_process_room_type` replaces the history by the pruned window and updates
the posted set exactly as the decision stage dictates. -/
theorem processRoomType_eq (cfg : Config) (st : ProviderState) (inp : CycleInput)
    (rt : String) (hurl : ¬ cfg.baseUrl = "")
    (hread : getCurrentRoomType inp.read = some rt) :
    processRoomType cfg st inp =
      ({ roomHistory := cycleWindow cfg st inp.now rt
         postedRoomTypes :=
           (decideAndDeliver cfg st.postedRoomTypes (cycleWindow cfg st inp.now rt)
             inp.now inp.http).1 },
       (decideAndDeliver cfg st.postedRoomTypes (cycleWindow cfg st inp.now rt)
         inp.now inp.http).2) := by
  simp [processRoomType, hurl, hread, cycleWindow]

/-- A nonempty window never makes the decision stage report an empty
window. -/
theorem decideAndDeliver_ne_emptyWindow (cfg : Config) (posted : List String)
    (hist : List (ℚ × String)) (now : ℚ) (http : HttpOutcome) (hne : hist ≠ []) :
    (decideAndDeliver cfg posted hist now http).2 ≠ CycleEvent.emptyWindow := by
  match hist with
  | [] => exact absurd rfl hne
  | p :: t =>
    simp only [decideAndDeliver]
    split_ifs <;> simp

/-- C5: at a fixed now, pruning a (timestamp-sorted) window removes exactly
the samples strictly older than the cutoff — no sample at or after the
cutoff is removed — and pruning again at the same now removes nothing
further. -/
theorem prune_exact_and_idempotent (cutoff : ℚ) (h : List (ℚ × String))
    (hs : TsSorted h) :
    pruneHistory cutoff h = h.filter (fun p => decide (cutoff ≤ p.1)) ∧
    pruneHistory cutoff (pruneHistory cutoff h) = pruneHistory cutoff h :=
  ⟨pruneHistory_eq_filter cutoff h hs, pruneHistory_idem cutoff h⟩

/-- Witness for C5 at a concrete sorted window and cutoff 6: only the two
entries before time 6 go, and a second prune is a no-op. -/
theorem prune_exact_and_idempotent_witness :
    TsSorted [((0:ℚ), "kitchen"), (5, "bedroom"), (7, "kitchen"), (9, "study")] ∧
    (pruneHistory 6 [((0:ℚ), "kitchen"), (5, "bedroom"), (7, "kitchen"), (9, "study")] =
        List.filter (fun p => decide ((6:ℚ) ≤ p.1))
          [((0:ℚ), "kitchen"), (5, "bedroom"), (7, "kitchen"), (9, "study")] ∧
      pruneHistory 6 (pruneHistory 6
          [((0:ℚ), "kitchen"), (5, "bedroom"), (7, "kitchen"), (9, "study")]) =
        pruneHistory 6 [((0:ℚ), "kitchen"), (5, "bedroom"), (7, "kitchen"), (9, "study")]) :=
  ⟨by decide, prune_exact_and_idempotent 6 _ (by decide)⟩

/-- C10: with a non-negative window horizon, the sample appended in the
current cycle survives the prune, so the window is never empty after
pruning and the empty-window early return of `_process_room_type` is
unreachable. -/
theorem appended_sample_survives (cfg : Config) (st : ProviderState) (inp : CycleInput)
    (hW : 0 ≤ cfg.windowSeconds) :
    (∀ rt, cycleWindow cfg st inp.now rt ≠ []) ∧
    (processRoomType cfg st inp).2 ≠ CycleEvent.emptyWindow := by
  have hkeep : ∀ rt : String, ¬ ((inp.now, rt) : ℚ × String).1 < inp.now - cfg.windowSeconds := by
    intro rt
    simp only [not_lt]
    linarith
  have h1 : ∀ rt, cycleWindow cfg st inp.now rt ≠ [] := fun rt =>
    pruneHistory_append_ne_nil _ _ _ (hkeep rt)
  refine ⟨h1, ?_⟩
  by_cases hurl : cfg.baseUrl = ""
  · simp [processRoomType, hurl]
  · cases hread : getCurrentRoomType inp.read with
    | none => simp [processRoomType, hurl, hread]
    | some rt =>
      rw [processRoomType_eq cfg st inp rt hurl hread]
      exact decideAndDeliver_ne_emptyWindow _ _ _ _ _ (h1 rt)

/-- Witness for C10 at the demo configuration and a kitchen cycle at time
20: the horizon is non-negative and no empty-window return happens. -/
theorem appended_sample_survives_witness :
    0 ≤ demoConfig.windowSeconds ∧
    ((∀ rt, cycleWindow demoConfig demoState (demoInput (.status 200)).now rt ≠ []) ∧
      (processRoomType demoConfig demoState (demoInput (.status 200))).2 ≠
        CycleEvent.emptyWindow) :=
  ⟨by decide, appended_sample_survives demoConfig demoState (demoInput (.status 200))
    (by decide)⟩

/-- C8: the try/except inside the `_run` loop body catches any exception a
cycle raises, so the loop executes every scheduled cycle no matter which
cycles fail, and a raising cycle is followed by the loop continuing from
the state the failed cycle left behind. -/
theorem loop_survives_cycle_failures (cfg : Config) (st : ProviderState)
    (behaviors : List CycleBehavior) :
    (runLoop cfg st behaviors).2 = behaviors.length ∧
    ∀ f rest, runLoop cfg st (CycleBehavior.raises f :: rest) =
      ((runLoop cfg (f st) rest).1, (runLoop cfg (f st) rest).2 + 1) := by
  constructor
  · induction behaviors generalizing st with
    | nil => rfl
    | cons b rest ih => cases b <;> simp [runLoop, ih]
  · intro f rest
    rfl

/-- C9: `start` warns and changes nothing when the thread is alive, and
logs an error and starts nothing when the endpoint is empty. -/
theorem start_idempotent_and_guarded (cfg : Config) (s : LifecycleState) :
    (threadRunning s = true → start cfg s = (s, StartOutcome.warnedAlreadyRunning)) ∧
    (threadRunning s = false → cfg.baseUrl = "" →
      start cfg s = (s, StartOutcome.erroredNoBaseUrl)) := by
  constructor
  · intro h
    simp [start, h]
  · intro h hb
    simp [start, h, hb]

/-- Witness for C9: a running provider is left untouched by a second
`start`, and a provider with an empty endpoint refuses to start. -/
theorem start_idempotent_and_guarded_witness :
    (threadRunning { thread := some true, stopEventSet := false, prov := demoState } = true ∧
      start demoConfig { thread := some true, stopEventSet := false, prov := demoState } =
        ({ thread := some true, stopEventSet := false, prov := demoState },
          StartOutcome.warnedAlreadyRunning)) ∧
    (threadRunning { thread := none, stopEventSet := false, prov := demoState } = false ∧
      { demoConfig with baseUrl := "" }.baseUrl = "" ∧
      start { demoConfig with baseUrl := "" }
          { thread := none, stopEventSet := false, prov := demoState } =
        ({ thread := none, stopEventSet := false, prov := demoState },
          StartOutcome.erroredNoBaseUrl)) :=
  ⟨⟨rfl, (start_idempotent_and_guarded demoConfig
      { thread := some true, stopEventSet := false, prov := demoState }).1 rfl⟩,
    ⟨rfl, rfl, (start_idempotent_and_guarded { demoConfig with baseUrl := "" }
      { thread := none, stopEventSet := false, prov := demoState }).2 rfl rfl⟩⟩

/-- C6: the sampler yields a sample exactly when the read succeeded with a
value whose stripped, lowercased text is in the allowed set, and the sample
it yields is that normalised text; hence only allowed labels ever enter the
window. -/
theorem sampler_allowed_iff (read : ReadResult) (l : String) :
    getCurrentRoomType read = some l ↔
      (∃ s, read = ReadResult.val (some s) ∧ l = normalizeRoom s) ∧
        l ∈ allowedRoomTypes := by
  constructor
  · intro h
    match read with
    | .err => simp [getCurrentRoomType] at h
    | .val none => simp [getCurrentRoomType] at h
    | .val (some s) =>
      by_cases hs : s = ""
      · simp [getCurrentRoomType, hs] at h
      · by_cases hm : normalizeRoom s ∈ allowedRoomTypes
        · simp only [getCurrentRoomType, if_neg hs, if_pos hm, Option.some.injEq] at h
          exact ⟨⟨s, rfl, h.symm⟩, h ▸ hm⟩
        · simp [getCurrentRoomType, hs, hm] at h
  · rintro ⟨⟨s, rfl, rfl⟩, hm⟩
    have hs : ¬ s = "" := by
      rintro rfl
      revert hm
      decide
    simp [getCurrentRoomType, hs, hm]

/-- The selection fold keeps a pair whose count matches its label, never
decreases the running count, and ends at least as high as every candidate
it saw. -/
theorem pickBest_spec (cnt : String → Nat) (b : String × Nat) (keys : List String)
    (hb : b.2 = cnt b.1) :
    (pickBest cnt b keys).2 = cnt (pickBest cnt b keys).1 ∧
    ((pickBest cnt b keys).1 = b.1 ∨ (pickBest cnt b keys).1 ∈ keys) ∧
    b.2 ≤ (pickBest cnt b keys).2 ∧
    ∀ x ∈ keys, cnt x ≤ (pickBest cnt b keys).2 := by
  induction keys generalizing b with
  | nil => exact ⟨hb, Or.inl rfl, le_refl _, by simp⟩
  | cons k rest ih =>
    have hstep : pickBest cnt b (k :: rest) =
        pickBest cnt (if cnt k > b.2 then (k, cnt k) else b) rest := rfl
    by_cases hk : cnt k > b.2
    · obtain ⟨h1, h2, h3, h4⟩ := ih (k, cnt k) rfl
      rw [hstep, if_pos hk]
      refine ⟨h1, ?_, le_trans (le_of_lt hk) h3, ?_⟩
      · rcases h2 with h2 | h2
        · exact Or.inr (h2 ▸ List.mem_cons_self k rest)
        · exact Or.inr (List.mem_cons_of_mem k h2)
      · intro x hx
        rcases List.mem_cons.mp hx with rfl | hx
        · exact le_trans (le_refl (cnt x)) h3
        · exact h4 x hx
    · obtain ⟨h1, h2, h3, h4⟩ := ih b hb
      rw [hstep, if_neg hk]
      refine ⟨h1, ?_, h3, ?_⟩
      · rcases h2 with h2 | h2
        · exact Or.inl h2
        · exact Or.inr (List.mem_cons_of_mem k h2)
      · intro x hx
        rcases List.mem_cons.mp hx with rfl | hx
        · exact le_trans (le_of_not_lt hk) (hb ▸ h3)
        · exact h4 x hx

/-- The counter keys in first-seen order are exactly the labels occurring
in the sequence. -/
theorem mem_firstSeenKeys (a : String) (l : List String) :
    a ∈ firstSeenKeys l ↔ a ∈ l := by
  induction l with
  | nil => simp [firstSeenKeys]
  | cons b rest ih =>
    by_cases hab : a = b
    · simp [firstSeenKeys, hab]
    · simp only [firstSeenKeys, List.mem_cons, List.mem_filter, ih, decide_eq_true_eq]
      constructor
      · rintro (rfl | ⟨h, -⟩)
        · exact Or.inl rfl
        · exact Or.inr h
      · rintro (rfl | h)
        · exact Or.inl rfl
        · exact Or.inr ⟨h, hab⟩

/-- C4 counterexample: in the two-sample window kitchen at 0 and bedroom at
1, the smoother selects kitchen, yet bedroom is a different in-window label
whose count is not strictly below the winning count — the tie is resolved
by first-seen order, not by a strict majority of counts. -/
theorem winner_strict_counterexample :
    ([((0:ℚ), "kitchen"), (1, "bedroom")] : List (ℚ × String)) ≠ [] ∧
    (mostCommon1 [((0:ℚ), "kitchen"), (1, "bedroom")]).1 = "kitchen" ∧
    "bedroom" ∈ List.map Prod.snd [((0:ℚ), "kitchen"), (1, "bedroom")] ∧
    "bedroom" ≠ "kitchen" ∧
    ¬ countLabel "bedroom" [((0:ℚ), "kitchen"), (1, "bedroom")] <
        (mostCommon1 [((0:ℚ), "kitchen"), (1, "bedroom")]).2 := by
  decide

/-- C4 amended: on every non-empty window the selected winner is an
in-window label whose reported count is its true occurrence count, and that
count is at least — not necessarily strictly greater than — the count of
every label in the window. -/
theorem winner_count_maximal (hist : List (ℚ × String)) (hne : hist ≠ []) :
    (mostCommon1 hist).2 = countLabel (mostCommon1 hist).1 hist ∧
    (mostCommon1 hist).1 ∈ hist.map Prod.snd ∧
    ∀ l ∈ hist.map Prod.snd, countLabel l hist ≤ (mostCommon1 hist).2 := by
  have hmapne : hist.map Prod.snd ≠ [] := by
    simpa using hne
  cases hkeys : firstSeenKeys (hist.map Prod.snd) with
  | nil =>
    exfalso
    match hmap : hist.map Prod.snd, hmapne with
    | a :: rest, _ =>
      have : a ∈ firstSeenKeys (hist.map Prod.snd) :=
        (mem_firstSeenKeys a _).mpr (by rw [hmap]; exact List.mem_cons_self a rest)
      rw [hkeys] at this
      exact absurd this (List.not_mem_nil a)
  | cons k rest =>
    have hmc : mostCommon1 hist =
        pickBest (fun l => countLabel l hist) (k, countLabel k hist) rest := by
      rw [mostCommon1, hkeys]
    obtain ⟨h1, h2, h3, h4⟩ :=
      pickBest_spec (fun l => countLabel l hist) (k, countLabel k hist) rest rfl
    rw [hmc]
    refine ⟨h1, ?_, ?_⟩
    · have hin : (pickBest (fun l => countLabel l hist) (k, countLabel k hist) rest).1 ∈
          firstSeenKeys (hist.map Prod.snd) := by
        rw [hkeys]
        rcases h2 with h2 | h2
        · exact h2 ▸ List.mem_cons_self k rest
        · exact List.mem_cons_of_mem k h2
      exact (mem_firstSeenKeys _ _).mp hin
    · intro l hl
      have hlk : l ∈ firstSeenKeys (hist.map Prod.snd) := (mem_firstSeenKeys l _).mpr hl
      rw [hkeys] at hlk
      rcases List.mem_cons.mp hlk with rfl | hlk
      · exact h3
      · exact h4 l hlk

/-- Witness for the amended C4 at the counterexample window: kitchen wins
with count 1, an in-window label, and 1 bounds both label counts. -/
theorem winner_count_maximal_witness :
    ([((0:ℚ), "kitchen"), (1, "bedroom")] : List (ℚ × String)) ≠ [] ∧
    ((mostCommon1 [((0:ℚ), "kitchen"), (1, "bedroom")]).2 =
        countLabel (mostCommon1 [((0:ℚ), "kitchen"), (1, "bedroom")]).1
          [((0:ℚ), "kitchen"), (1, "bedroom")] ∧
      (mostCommon1 [((0:ℚ), "kitchen"), (1, "bedroom")]).1 ∈
        List.map Prod.snd [((0:ℚ), "kitchen"), (1, "bedroom")] ∧
      ∀ l ∈ List.map Prod.snd [((0:ℚ), "kitchen"), (1, "bedroom")],
        countLabel l [((0:ℚ), "kitchen"), (1, "bedroom")] ≤
          (mostCommon1 [((0:ℚ), "kitchen"), (1, "bedroom")]).2) :=
  ⟨by decide, winner_count_maximal [((0:ℚ), "kitchen"), (1, "bedroom")] (by decide)⟩

/-- C7: a cycle that records a sample keeps the window sorted by timestamp
(the new sample goes to the tail, given time does not run backwards),
removes only a prefix of the deque, and leaves every surviving sample at or
after now minus the horizon. -/
theorem window_invariant_preserved (cfg : Config) (st : ProviderState)
    (inp : CycleInput) (rt : String)
    (hurl : ¬ cfg.baseUrl = "")
    (hread : getCurrentRoomType inp.read = some rt)
    (hs : TsSorted st.roomHistory)
    (hmono : ∀ p ∈ st.roomHistory, p.1 ≤ inp.now) :
    TsSorted (processRoomType cfg st inp).1.roomHistory ∧
    (∀ p ∈ (processRoomType cfg st inp).1.roomHistory,
      inp.now - cfg.windowSeconds ≤ p.1) ∧
    ∃ k, (processRoomType cfg st inp).1.roomHistory =
      (st.roomHistory ++ [(inp.now, rt)]).drop k := by
  rw [processRoomType_eq cfg st inp rt hurl hread]
  dsimp only
  have hsL : TsSorted (st.roomHistory ++ [(inp.now, rt)]) :=
    List.pairwise_append.mpr ⟨hs, List.pairwise_singleton _ _, by
      intro a ha b hb
      rw [List.mem_singleton] at hb
      exact hb ▸ hmono a ha⟩
  refine ⟨?_, ?_, ?_⟩
  · exact List.Pairwise.sublist (pruneHistory_sublist _ _) hsL
  · intro p hp
    rw [cycleWindow, pruneHistory_eq_filter _ _ hsL] at hp
    simpa using (List.of_mem_filter hp)
  · obtain ⟨k, hk, -⟩ := pruneHistory_exists_drop (inp.now - cfg.windowSeconds)
      (st.roomHistory ++ [(inp.now, rt)])
    exact ⟨k, hk⟩

/-- Witness for C7 at the demo state: the four kitchen samples are sorted
and at or before time 20, and the cycle at 20 preserves the invariant. -/
theorem window_invariant_preserved_witness :
    (¬ demoConfig.baseUrl = "") ∧
    getCurrentRoomType (demoInput (.status 200)).read = some "kitchen" ∧
    TsSorted demoState.roomHistory ∧
    (∀ p ∈ demoState.roomHistory, p.1 ≤ (demoInput (.status 200)).now) ∧
    (TsSorted (processRoomType demoConfig demoState (demoInput (.status 200))).1.roomHistory ∧
      (∀ p ∈ (processRoomType demoConfig demoState (demoInput (.status 200))).1.roomHistory,
        (demoInput (.status 200)).now - demoConfig.windowSeconds ≤ p.1) ∧
      ∃ k, (processRoomType demoConfig demoState (demoInput (.status 200))).1.roomHistory =
        (demoState.roomHistory ++ [((demoInput (.status 200)).now, "kitchen")]).drop k) :=
  ⟨by decide, by decide, by decide, by decide,
    window_invariant_preserved demoConfig demoState (demoInput (.status 200)) "kitchen"
      (by decide) (by decide) (by decide) (by decide)⟩

/-- On a nonempty window, the decision stage hands the winner to the
delivery gate exactly when the majority and stability checks both pass,
and otherwise ends the cycle with no decision. -/
theorem decideAndDeliver_gate_iff (cfg : Config) (posted : List String)
    (hist : List (ℚ × String)) (now : ℚ) (http : HttpOutcome) (hne : hist ≠ []) :
    (gateReached (decideAndDeliver cfg posted hist now http).2 =
        some (mostCommon1 hist).1 ↔
      cfg.majorityThreshold ≤ ((mostCommon1 hist).2 : ℚ) / (hist.length : ℚ) ∧
        cfg.minStableSeconds ≤ now - minWinnerTs (mostCommon1 hist).1 hist) ∧
    (¬ (cfg.majorityThreshold ≤ ((mostCommon1 hist).2 : ℚ) / (hist.length : ℚ) ∧
        cfg.minStableSeconds ≤ now - minWinnerTs (mostCommon1 hist).1 hist) →
      (decideAndDeliver cfg posted hist now http).2 = CycleEvent.noDecision) := by
  match hist with
  | [] => exact absurd rfl hne
  | p :: t =>
    simp only [decideAndDeliver]
    split_ifs
    · rename_i h1
      refine ⟨?_, fun _ => rfl⟩
      constructor
      · intro h
        simp [gateReached] at h
      · rintro ⟨ha, -⟩
        exact absurd ha (not_le.mpr h1)
    · rename_i h1 h2
      refine ⟨?_, fun _ => rfl⟩
      constructor
      · intro h
        simp [gateReached] at h
      · rintro ⟨-, hb⟩
        exact absurd hb (not_le.mpr h2)
    · rename_i h1 h2 h3
      exact ⟨iff_of_true rfl ⟨not_lt.mp h1, not_lt.mp h2⟩,
        fun hc => absurd ⟨not_lt.mp h1, not_lt.mp h2⟩ hc⟩
    · rename_i h1 h2 h3 h4
      exact ⟨iff_of_true rfl ⟨not_lt.mp h1, not_lt.mp h2⟩,
        fun hc => absurd ⟨not_lt.mp h1, not_lt.mp h2⟩ hc⟩
    · rename_i h1 h2 h3 h4
      exact ⟨iff_of_true rfl ⟨not_lt.mp h1, not_lt.mp h2⟩,
        fun hc => absurd ⟨not_lt.mp h1, not_lt.mp h2⟩ hc⟩

/-- C1: on a cycle with a configured endpoint, a valid sample and a
nonempty pruned window, the winning label is confirmed and handed to the
delivery gate exactly when its count divided by the window size reaches the
majority threshold and now minus the earliest in-window timestamp of the
winning label reaches the minimum stability; otherwise the cycle ends with
no decision and no delivery attempt. -/
theorem confirmation_iff (cfg : Config) (st : ProviderState) (inp : CycleInput)
    (rt : String)
    (hurl : ¬ cfg.baseUrl = "")
    (hread : getCurrentRoomType inp.read = some rt)
    (hne : cycleWindow cfg st inp.now rt ≠ []) :
    (gateReached (processRoomType cfg st inp).2 =
        some (mostCommon1 (cycleWindow cfg st inp.now rt)).1 ↔
      cfg.majorityThreshold ≤ ((mostCommon1 (cycleWindow cfg st inp.now rt)).2 : ℚ) /
          ((cycleWindow cfg st inp.now rt).length : ℚ) ∧
        cfg.minStableSeconds ≤ inp.now -
          minWinnerTs (mostCommon1 (cycleWindow cfg st inp.now rt)).1
            (cycleWindow cfg st inp.now rt)) ∧
    (¬ (cfg.majorityThreshold ≤ ((mostCommon1 (cycleWindow cfg st inp.now rt)).2 : ℚ) /
          ((cycleWindow cfg st inp.now rt).length : ℚ) ∧
        cfg.minStableSeconds ≤ inp.now -
          minWinnerTs (mostCommon1 (cycleWindow cfg st inp.now rt)).1
            (cycleWindow cfg st inp.now rt)) →
      (processRoomType cfg st inp).2 = CycleEvent.noDecision) := by
  rw [processRoomType_eq cfg st inp rt hurl hread]
  exact decideAndDeliver_gate_iff cfg st.postedRoomTypes _ inp.now inp.http hne

/-- A cycle that reports a failed POST leaves the posted set untouched, and
only a failed HTTP outcome produces that report. -/
theorem decideAndDeliver_posted_false_inv (cfg : Config) (posted : List String)
    (hist : List (ℚ × String)) (now : ℚ) (http : HttpOutcome) (l : String)
    (h : (decideAndDeliver cfg posted hist now http).2 = CycleEvent.posted l false) :
    (decideAndDeliver cfg posted hist now http).1 = posted ∧
      httpSuccess http = false := by
  match hist with
  | [] => simp [decideAndDeliver] at h
  | p :: t =>
    simp only [decideAndDeliver] at h ⊢
    split_ifs at h ⊢ <;> simp at h
    all_goals
      rename_i h1 h2 h3 h4
      exact ⟨rfl, by simpa using h4⟩

/-- A confirmed label that is not yet in the posted set always reaches the
POST: the cycle reports a posting whose success flag is the HTTP outcome. -/
theorem decideAndDeliver_gate_posts (cfg : Config) (posted : List String)
    (hist : List (ℚ × String)) (now : ℚ) (http : HttpOutcome) (l : String)
    (hl : l ∉ posted)
    (hg : gateReached (decideAndDeliver cfg posted hist now http).2 = some l) :
    (decideAndDeliver cfg posted hist now http).2 =
      CycleEvent.posted l (httpSuccess http) := by
  match hist with
  | [] => simp [decideAndDeliver, gateReached] at hg
  | p :: t =>
    simp only [decideAndDeliver] at hg ⊢
    split_ifs at hg ⊢
    · simp [gateReached] at hg
    · simp [gateReached] at hg
    · rename_i h1 h2 h3
      simp only [gateReached, Option.some.injEq] at hg
      rw [← hg] at hl
      exact absurd h3 hl
    · rename_i h1 h2 h3 h4
      simp only [gateReached, Option.some.injEq] at hg
      rw [hg, h4]
    · rename_i h1 h2 h3 h4
      simp only [gateReached, Option.some.injEq] at hg
      have hf : httpSuccess http = false := by simpa using h4
      rw [hg, hf]

/-- Lift of the gate lemma to a whole cycle. -/
theorem processRoomType_gate_posts (cfg : Config) (st : ProviderState)
    (inp : CycleInput) (l : String)
    (hl : l ∉ st.postedRoomTypes)
    (hg : gateReached (processRoomType cfg st inp).2 = some l) :
    (processRoomType cfg st inp).2 = CycleEvent.posted l (httpSuccess inp.http) := by
  by_cases hurl : cfg.baseUrl = ""
  · simp [processRoomType, hurl, gateReached] at hg
  · cases hread : getCurrentRoomType inp.read with
    | none => simp [processRoomType, hurl, hread, gateReached] at hg
    | some rt =>
      rw [processRoomType_eq cfg st inp rt hurl hread] at hg ⊢
      exact decideAndDeliver_gate_posts cfg st.postedRoomTypes _ inp.now inp.http l hl hg

/-- C3: a cycle whose POST for a confirmed label fails (non-2xx status,
timeout, or transport exception — exactly the outcomes with a false success
flag) leaves the delivery record unchanged, and any later cycle that brings
the still-unposted label back through the gate attempts the POST again. -/
theorem failed_delivery_leaves_record (cfg : Config) (st : ProviderState)
    (inp : CycleInput) (l : String)
    (h : (processRoomType cfg st inp).2 = CycleEvent.posted l false) :
    (processRoomType cfg st inp).1.postedRoomTypes = st.postedRoomTypes ∧
    httpSuccess inp.http = false ∧
    ∀ (st3 : ProviderState) (inp3 : CycleInput), l ∉ st3.postedRoomTypes →
      gateReached (processRoomType cfg st3 inp3).2 = some l →
      (processRoomType cfg st3 inp3).2 = CycleEvent.posted l (httpSuccess inp3.http) := by
  refine ⟨?_, ?_, fun st3 inp3 => processRoomType_gate_posts cfg st3 inp3 l⟩
  all_goals
    by_cases hurl : cfg.baseUrl = ""
  · simp [processRoomType, hurl]
  · cases hread : getCurrentRoomType inp.read with
    | none => simp [processRoomType, hurl, hread]
    | some rt =>
      rw [processRoomType_eq cfg st inp rt hurl hread] at h ⊢
      exact (decideAndDeliver_posted_false_inv cfg st.postedRoomTypes _
        inp.now inp.http l h).1
  · simp [processRoomType, hurl] at h
  · cases hread : getCurrentRoomType inp.read with
    | none => simp [processRoomType, hurl, hread] at h
    | some rt =>
      rw [processRoomType_eq cfg st inp rt hurl hread] at h
      exact (decideAndDeliver_posted_false_inv cfg st.postedRoomTypes _
        inp.now inp.http l h).2

/-- The decision stage never removes a label from the posted set. -/
theorem decideAndDeliver_posted_mono (cfg : Config) (posted : List String)
    (hist : List (ℚ × String)) (now : ℚ) (http : HttpOutcome) (l : String)
    (hl : l ∈ posted) : l ∈ (decideAndDeliver cfg posted hist now http).1 := by
  match hist with
  | [] => simpa [decideAndDeliver] using hl
  | p :: t =>
    simp only [decideAndDeliver]
    split_ifs <;> simp [hl]

/-- The decision stage never POSTs a label that is already in the posted
set: the gate suppresses it. -/
theorem decideAndDeliver_no_post_of_mem (cfg : Config) (posted : List String)
    (hist : List (ℚ × String)) (now : ℚ) (http : HttpOutcome) (l : String)
    (hl : l ∈ posted) (b : Bool) :
    (decideAndDeliver cfg posted hist now http).2 ≠ CycleEvent.posted l b := by
  match hist with
  | [] => simp [decideAndDeliver]
  | p :: t =>
    simp only [decideAndDeliver]
    split_ifs <;> simp
    all_goals
      rename_i h1 h2 h3 h4
      intro heq
      rw [← heq] at hl
      exact absurd hl h3

/-- A cycle that reports a successful POST of a label has that label in its
resulting posted set. -/
theorem decideAndDeliver_posted_true_mem (cfg : Config) (posted : List String)
    (hist : List (ℚ × String)) (now : ℚ) (http : HttpOutcome) (l : String)
    (h : (decideAndDeliver cfg posted hist now http).2 = CycleEvent.posted l true) :
    l ∈ (decideAndDeliver cfg posted hist now http).1 := by
  match hist with
  | [] => simp [decideAndDeliver] at h
  | p :: t =>
    simp only [decideAndDeliver] at h ⊢
    split_ifs at h ⊢ <;> simp at h
    all_goals
      rw [← h]
      exact List.mem_cons_self _ _

/-- A full cycle never removes a label from the posted set. -/
theorem processRoomType_posted_mono (cfg : Config) (st : ProviderState)
    (inp : CycleInput) (l : String) (hl : l ∈ st.postedRoomTypes) :
    l ∈ (processRoomType cfg st inp).1.postedRoomTypes := by
  by_cases hurl : cfg.baseUrl = ""
  · simpa [processRoomType, hurl] using hl
  · cases hread : getCurrentRoomType inp.read with
    | none => simpa [processRoomType, hurl, hread] using hl
    | some rt =>
      rw [processRoomType_eq cfg st inp rt hurl hread]
      exact decideAndDeliver_posted_mono cfg st.postedRoomTypes _ inp.now inp.http l hl

/-- A full cycle never POSTs a label already in the posted set. -/
theorem processRoomType_no_post_of_mem (cfg : Config) (st : ProviderState)
    (inp : CycleInput) (l : String) (hl : l ∈ st.postedRoomTypes) (b : Bool) :
    (processRoomType cfg st inp).2 ≠ CycleEvent.posted l b := by
  by_cases hurl : cfg.baseUrl = ""
  · simp [processRoomType, hurl]
  · cases hread : getCurrentRoomType inp.read with
    | none => simp [processRoomType, hurl, hread]
    | some rt =>
      rw [processRoomType_eq cfg st inp rt hurl hread]
      exact decideAndDeliver_no_post_of_mem cfg st.postedRoomTypes _ inp.now inp.http l hl b

/-- A full cycle reporting a successful POST of a label leaves it in the
posted set. -/
theorem processRoomType_posted_true_mem (cfg : Config) (st : ProviderState)
    (inp : CycleInput) (l : String)
    (h : (processRoomType cfg st inp).2 = CycleEvent.posted l true) :
    l ∈ (processRoomType cfg st inp).1.postedRoomTypes := by
  by_cases hurl : cfg.baseUrl = ""
  · simp [processRoomType, hurl] at h
  · cases hread : getCurrentRoomType inp.read with
    | none => simp [processRoomType, hurl, hread] at h
    | some rt =>
      rw [processRoomType_eq cfg st inp rt hurl hread] at h ⊢
      exact decideAndDeliver_posted_true_mem cfg st.postedRoomTypes _ inp.now inp.http l h

/-- Running a batch of cycles never removes a label from the posted set. -/
theorem runCycles_posted_mono (cfg : Config) (st : ProviderState)
    (inps : List CycleInput) (l : String) (hl : l ∈ st.postedRoomTypes) :
    l ∈ (runCycles cfg st inps).1.postedRoomTypes := by
  induction inps generalizing st with
  | nil => simpa [runCycles] using hl
  | cons inp rest ih =>
    simp only [runCycles]
    exact ih _ (processRoomType_posted_mono cfg st inp l hl)

/-- No cycle of a batch POSTs a label that was already in the posted set
when the batch began. -/
theorem runCycles_no_post_of_mem (cfg : Config) (st : ProviderState)
    (inps : List CycleInput) (l : String) (hl : l ∈ st.postedRoomTypes) (b : Bool) :
    CycleEvent.posted l b ∉ (runCycles cfg st inps).2 := by
  induction inps generalizing st with
  | nil => simp [runCycles]
  | cons inp rest ih =>
    simp only [runCycles, List.mem_cons]
    rintro (h | h)
    · exact processRoomType_no_post_of_mem cfg st inp l hl b h.symm
    · exact ih _ (processRoomType_posted_mono cfg st inp l hl) h

/-- After a batch containing a successful POST of a label, the label is in
the posted set. -/
theorem runCycles_success_mem (cfg : Config) (st : ProviderState)
    (inps : List CycleInput) (l : String)
    (h : CycleEvent.posted l true ∈ (runCycles cfg st inps).2) :
    l ∈ (runCycles cfg st inps).1.postedRoomTypes := by
  induction inps generalizing st with
  | nil => simp [runCycles] at h
  | cons inp rest ih =>
    simp only [runCycles, List.mem_cons] at h ⊢
    rcases h with h | h
    · exact runCycles_posted_mono cfg _ rest l
        (processRoomType_posted_true_mem cfg st inp l h.symm)
    · exact ih _ h

/-- Cycle batches compose: the state threads through and the event logs
concatenate. -/
theorem runCycles_append (cfg : Config) (st : ProviderState)
    (pre post : List CycleInput) :
    runCycles cfg st (pre ++ post) =
      ((runCycles cfg (runCycles cfg st pre).1 post).1,
        (runCycles cfg st pre).2 ++ (runCycles cfg (runCycles cfg st pre).1 post).2) := by
  induction pre generalizing st with
  | nil => simp [runCycles]
  | cons inp rest ih => simp [runCycles, ih]

/-- C2: the delivery record only grows across any run of cycles, and once a
label has been successfully posted, no later cycle ever invokes the POST
for it again — every later reconfirmation is suppressed at the gate. -/
theorem delivery_at_most_once (cfg : Config) (st : ProviderState) (l : String)
    (pre post : List CycleInput) :
    (∀ x ∈ st.postedRoomTypes, x ∈ (runCycles cfg st (pre ++ post)).1.postedRoomTypes) ∧
    (runCycles cfg st (pre ++ post)).2 =
      (runCycles cfg st pre).2 ++ (runCycles cfg (runCycles cfg st pre).1 post).2 ∧
    (CycleEvent.posted l true ∈ (runCycles cfg st pre).2 →
      ∀ b, CycleEvent.posted l b ∉ (runCycles cfg (runCycles cfg st pre).1 post).2) := by
  refine ⟨fun x hx => runCycles_posted_mono cfg st (pre ++ post) x hx, ?_, ?_⟩
  · rw [runCycles_append]
  · intro hsucc b
    exact runCycles_no_post_of_mem cfg _ post l
      (runCycles_success_mem cfg st pre l hsucc) b

/-- Under the demo configuration, the window of a kitchen cycle at time 20
keeps all five samples: the cutoff is minus 10. -/
theorem demo_cycleWindow_eval :
    cycleWindow demoConfig demoState 20 "kitchen" =
      [(0, "kitchen"), (5, "kitchen"), (10, "kitchen"), (15, "kitchen"), (20, "kitchen")] := by
  norm_num [cycleWindow, pruneHistory, demoConfig, demoState]

/-- Under the demo configuration, the kitchen cycle at time 20 confirms
kitchen (majority 1, stable for 20 seconds) and POSTs it, reporting the
HTTP outcome as the success flag. -/
theorem demo_event_posted (http : HttpOutcome) :
    (processRoomType demoConfig demoState (demoInput http)).2 =
      CycleEvent.posted "kitchen" (httpSuccess http) := by
  rw [processRoomType_eq demoConfig demoState (demoInput http) "kitchen"
    (by decide) (by rw [show (demoInput http).read = ReadResult.val (some "kitchen") from rfl]; decide)]
  have hnow : (demoInput http).now = 20 := rfl
  have hw : cycleWindow demoConfig demoState (demoInput http).now "kitchen" =
      [(0, "kitchen"), (5, "kitchen"), (10, "kitchen"), (15, "kitchen"), (20, "kitchen")] := by
    rw [hnow, demo_cycleWindow_eval]
  rw [hw, hnow]
  have hposted : demoState.postedRoomTypes = [] := rfl
  have hhttp : (demoInput http).http = http := rfl
  rw [hposted, hhttp]
  norm_num [decideAndDeliver, mostCommon1, firstSeenKeys, pickBest, countLabel,
    minWinnerTs, demoConfig, min_def]
  cases hsucc : httpSuccess http <;> simp [hsucc]

/-- Witness for C1 at the demo cycle: endpoint configured, kitchen sample
read, window nonempty, and the confirmation equivalence holds there. -/
theorem confirmation_iff_witness :
    (¬ demoConfig.baseUrl = "") ∧
    getCurrentRoomType (demoInput (HttpOutcome.status 200)).read = some "kitchen" ∧
    cycleWindow demoConfig demoState (demoInput (HttpOutcome.status 200)).now "kitchen" ≠ [] ∧
    ((gateReached (processRoomType demoConfig demoState (demoInput (HttpOutcome.status 200))).2 =
        some (mostCommon1 (cycleWindow demoConfig demoState
          (demoInput (HttpOutcome.status 200)).now "kitchen")).1 ↔
      demoConfig.majorityThreshold ≤
          ((mostCommon1 (cycleWindow demoConfig demoState
            (demoInput (HttpOutcome.status 200)).now "kitchen")).2 : ℚ) /
          ((cycleWindow demoConfig demoState
            (demoInput (HttpOutcome.status 200)).now "kitchen").length : ℚ) ∧
        demoConfig.minStableSeconds ≤ (demoInput (HttpOutcome.status 200)).now -
          minWinnerTs (mostCommon1 (cycleWindow demoConfig demoState
              (demoInput (HttpOutcome.status 200)).now "kitchen")).1
            (cycleWindow demoConfig demoState
              (demoInput (HttpOutcome.status 200)).now "kitchen")) ∧
    (¬ (demoConfig.majorityThreshold ≤
          ((mostCommon1 (cycleWindow demoConfig demoState
            (demoInput (HttpOutcome.status 200)).now "kitchen")).2 : ℚ) /
          ((cycleWindow demoConfig demoState
            (demoInput (HttpOutcome.status 200)).now "kitchen").length : ℚ) ∧
        demoConfig.minStableSeconds ≤ (demoInput (HttpOutcome.status 200)).now -
          minWinnerTs (mostCommon1 (cycleWindow demoConfig demoState
              (demoInput (HttpOutcome.status 200)).now "kitchen")).1
            (cycleWindow demoConfig demoState
              (demoInput (HttpOutcome.status 200)).now "kitchen")) →
      (processRoomType demoConfig demoState (demoInput (HttpOutcome.status 200))).2 =
        CycleEvent.noDecision)) := by
  have hurl : ¬ demoConfig.baseUrl = "" := by decide
  have hread : getCurrentRoomType (demoInput (HttpOutcome.status 200)).read =
      some "kitchen" := by decide
  have hne : cycleWindow demoConfig demoState
      (demoInput (HttpOutcome.status 200)).now "kitchen" ≠ [] := by
    rw [show (demoInput (HttpOutcome.status 200)).now = 20 from rfl, demo_cycleWindow_eval]
    decide
  exact ⟨hurl, hread, hne, confirmation_iff demoConfig demoState
    (demoInput (HttpOutcome.status 200)) "kitchen" hurl hread hne⟩

/-- Witness for C2: a cycle that successfully posts kitchen appears in the
first batch, after which neither a successful nor a failed kitchen POST
occurs in a second confirming batch. -/
theorem delivery_at_most_once_witness :
    CycleEvent.posted "kitchen" true ∈
      (runCycles demoConfig demoState [demoInput (HttpOutcome.status 200)]).2 ∧
    CycleEvent.posted "kitchen" true ∉
      (runCycles demoConfig
        (runCycles demoConfig demoState [demoInput (HttpOutcome.status 200)]).1
        [demoInput (HttpOutcome.status 200)]).2 ∧
    CycleEvent.posted "kitchen" false ∉
      (runCycles demoConfig
        (runCycles demoConfig demoState [demoInput (HttpOutcome.status 200)]).1
        [demoInput (HttpOutcome.status 200)]).2 := by
  have hev : (processRoomType demoConfig demoState (demoInput (HttpOutcome.status 200))).2 =
      CycleEvent.posted "kitchen" true := by
    rw [demo_event_posted]
    decide
  have hmem : CycleEvent.posted "kitchen" true ∈
      (runCycles demoConfig demoState [demoInput (HttpOutcome.status 200)]).2 := by
    simp only [runCycles]
    rw [hev]
    exact List.mem_cons_self _ _
  have happ := delivery_at_most_once demoConfig demoState "kitchen"
    [demoInput (HttpOutcome.status 200)] [demoInput (HttpOutcome.status 200)]
  exact ⟨hmem, happ.2.2 hmem true, happ.2.2 hmem false⟩

/-- Witness for C3: the kitchen cycle against a 500 response reports a
failed POST; the record is unchanged, the HTTP outcome is a failure, and a
later confirming cycle with kitchen still unposted attempts the POST. -/
theorem failed_delivery_witness :
    (processRoomType demoConfig demoState (demoInput (HttpOutcome.status 500))).2 =
      CycleEvent.posted "kitchen" false ∧
    ((processRoomType demoConfig demoState
        (demoInput (HttpOutcome.status 500))).1.postedRoomTypes =
      demoState.postedRoomTypes ∧
    httpSuccess (demoInput (HttpOutcome.status 500)).http = false ∧
    ("kitchen" ∉ demoState.postedRoomTypes ∧
      gateReached (processRoomType demoConfig demoState
        (demoInput (HttpOutcome.status 200))).2 = some "kitchen" ∧
      (processRoomType demoConfig demoState (demoInput (HttpOutcome.status 200))).2 =
        CycleEvent.posted "kitchen"
          (httpSuccess (demoInput (HttpOutcome.status 200)).http))) := by
  have hev : (processRoomType demoConfig demoState (demoInput (HttpOutcome.status 500))).2 =
      CycleEvent.posted "kitchen" false := by
    rw [demo_event_posted]
    decide
  have hnotposted : "kitchen" ∉ demoState.postedRoomTypes := by decide
  have hgate : gateReached (processRoomType demoConfig demoState
      (demoInput (HttpOutcome.status 200))).2 = some "kitchen" := by
    rw [demo_event_posted]
    decide
  have hmain := failed_delivery_leaves_record demoConfig demoState
    (demoInput (HttpOutcome.status 500)) "kitchen" hev
  exact ⟨hev, hmain.1, hmain.2.1, hnotposted, hgate,
    hmain.2.2 demoState (demoInput (HttpOutcome.status 200)) hnotposted hgate⟩

end RoomTypeLocation
